import Mathlib

/-!
Verification of the Atlas-Storage server core, shallowly embedded from the
Go sources: the quota-reporting middleware (`internal/server/server.go`),
the directory-usage walk (`internal/server/dir_usage.go`) and the
credential store (`pkg/user/user.go`).

Go strings are modelled as `List Char` (rune sequences).  The regex
patterns compiled in `quotaMiddleware` are embedded as executable rune
matchers; both patterns are pure ASCII, so match positions land on rune
boundaries and rune indices agree with Go's byte offsets for the splice.
Byte lengths (Go `len` on a `[]byte` of valid UTF-8) are recovered with
`utf8Len`.
-/

/-- Test whether the first list is an initial segment of the second
(Go `strings.HasPrefix` at rune level). -/
def beginsWith : List Char → List Char → Bool
  | [], _ => true
  | _ :: _, [] => false
  | p :: ps, c :: cs => p == c && beginsWith ps cs

/-- Membership in the regex character class `[a-zA-Z0-9_]` used by
`nsRegex` in `quotaMiddleware`. -/
def isWordChar (c : Char) : Bool :=
  c.isAlpha || c.isDigit || c == '_'

/-- Membership in the regex character class `[a-zA-Z0-9_:]` used by
`propEndRegex` in `quotaMiddleware`. -/
def isTagChar (c : Char) : Bool :=
  isWordChar c || c == ':'

/-- Number of bytes the UTF-8 encoding of a character occupies;
used to recover Go byte lengths from rune sequences. -/
def charUtf8Size (c : Char) : Nat :=
  if c.toNat < 128 then 1
  else if c.toNat < 2048 then 2
  else if c.toNat < 65536 then 3
  else 4

/-- Byte length of the UTF-8 encoding of a rune sequence
(Go `len(string(...))`). -/
def utf8Len (cs : List Char) : Nat :=
  (cs.map charUtf8Size).sum

/-- Matcher for the tail of `propEndRegex` after the literal `</`:
accepts any sequence in class `[a-zA-Z0-9_:]*` followed by the literal
closing text `prop>`. -/
def propCloseTail : List Char → Bool
  | [] => false
  | c :: rest =>
      beginsWith ("prop>".toList) (c :: rest) || (isTagChar c && propCloseTail rest)

/-- Decide whether `propEndRegex`, the pattern for a closing tag whose
name ends in `prop`, matches starting at the head of `cs`. -/
def propCloseAt : List Char → Bool
  | '<' :: '/' :: rest => propCloseTail rest
  | _ => false

/-- Index of the leftmost match of `propEndRegex` in the body
(`FindStringIndex` start position), if any. -/
def findPropClose : List Char → Option Nat
  | [] => none
  | c :: rest =>
      if propCloseAt (c :: rest) then some 0
      else (findPropClose rest).map (· + 1)

/-- Attempt to match `nsRegex` at the head of `cs`: the literal
`xmlns:`, then a nonempty run in class `[a-zA-Z0-9_]`, then the literal
text binding the run to the DAV: namespace.  Returns the captured run. -/
def nsDeclAt (cs : List Char) : Option (List Char) :=
  if beginsWith ("xmlns:".toList) cs then
    let rest := cs.drop 6
    let run := rest.takeWhile isWordChar
    if run ≠ [] && beginsWith ("=\"DAV:\"".toList) (rest.drop run.length) then
      some run
    else none
  else none

/-- Leftmost match of `nsRegex` in the body
(`FindStringSubmatch` capture), if any. -/
def findNsPfx : List Char → Option (List Char)
  | [] => none
  | c :: rest =>
      match nsDeclAt (c :: rest) with
      | some p => some p
      | none => findNsPfx rest

/-- Namespace tag used for the injected elements: the prefix discovered
by `nsRegex`, or the default `D` when the body declares none. -/
def davPfx (body : List Char) : List Char :=
  (findNsPfx body).getD ['D']

/-- Insertion string built by `fmt.Sprintf` in `quotaMiddleware`:
the two quota elements carrying the decimal byte counts. -/
def quotaXML (pfx : List Char) (free used : Nat) : List Char :=
  ('<' :: pfx) ++ ":quota-available-bytes>".toList ++ (Nat.repr free).toList
    ++ "</".toList ++ pfx ++ ":quota-available-bytes><".toList ++ pfx
    ++ ":quota-used-bytes>".toList ++ (Nat.repr used).toList
    ++ "</".toList ++ pfx ++ ":quota-used-bytes>".toList

/-- XML rewrite step of `quotaMiddleware`: splice the two quota elements
immediately before the leftmost `propEndRegex` match, or leave the body
unchanged when the pattern does not occur. -/
def injectQuota (free used : Nat) (body : List Char) : List Char :=
  let xml := quotaXML (davPfx body) free used
  match findPropClose body with
  | some i => body.take i ++ xml ++ body.drop i
  | none => body

/-- Word width of Go `uint64` values. -/
def W64 : Nat := 2 ^ 64

/-- Go `uint64` subtraction `a - b`, with wraparound modulo `2 ^ 64`. -/
def sub64 (a b : Nat) : Nat := (a + W64 - b) % W64

/-- Quota-branch figure computation from `quotaMiddleware`
(`server.go` lines 184-191): clamp the directory usage to the quota,
then report the remaining quota as free space.  Returns
`(used, free)`. -/
def quotaFigures (quotaBytes dirUsed : Nat) : Nat × Nat :=
  let used := if dirUsed > quotaBytes then quotaBytes else dirUsed
  let free := if quotaBytes ≥ used then sub64 quotaBytes used else 0
  (used, free)

/-- Request data observed by the middleware. -/
structure Request where
  method : String
  path : String

/-- State of a `responseBuffer` after the inner handler ran: captured
status code (initialised to 200) and accumulated body bytes. -/
structure BufferedResponse where
  code : Nat
  body : List Char

/-- Response observed by the client: status, body, and the two header
fields `quotaMiddleware` may touch. -/
structure HttpResponse where
  status : Nat
  body : List Char
  contentLength : Option Nat
  contentType : Option String
deriving DecidableEq

/-- HTTP 207, the WebDAV multi-status success code. -/
def statusMultiStatus : Nat := 207

/-- Default content type `quotaMiddleware` sets when the engine left the
header unset. -/
def defaultContentType : String := "text/xml; charset=utf-8"

/-- Usage computation of `quotaMiddleware`: the quota branch clamps the
directory usage via `quotaFigures`, the quota-unset branch delegates to
the filesystem provider.  Result on success is `(free, used)`. -/
def msUsage (quotaBytes : Nat) (dirUsage : Except String Nat)
    (diskUsage : Except String (Nat × Nat)) : Except String (Nat × Nat) :=
  if quotaBytes > 0 then
    match dirUsage with
    | .ok d => .ok ((quotaFigures quotaBytes d).2, (quotaFigures quotaBytes d).1)
    | .error e => .error e
  else diskUsage

/-- Body served on the multi-status path: the rewritten body when the
usage computation succeeded, the buffered body unchanged when it
failed. -/
def msBody (quotaBytes : Nat) (dirUsage : Except String Nat)
    (diskUsage : Except String (Nat × Nat)) (body : List Char) : List Char :=
  match msUsage quotaBytes dirUsage diskUsage with
  | .ok fu => injectQuota fu.1 fu.2 body
  | .error _ => body

/-- Shallow embedding of `quotaMiddleware`.  The inner WebDAV handler is
the function `inner` from requests to buffered responses; the two usage
providers are oracles: `dirUsage` is the result of `getDirUsedBytes`,
`diskUsage` the `(free, used)` result of the platform `getDiskUsage`
call.  `ct0` and `cl0` are the Content-Type and Content-Length header
values already present when the middleware finishes. -/
def quotaMiddleware (quotaBytes : Nat) (dirUsage : Except String Nat)
    (diskUsage : Except String (Nat × Nat))
    (inner : Request → BufferedResponse)
    (ct0 : Option String) (cl0 : Option Nat) (req : Request) : HttpResponse :=
  if req.method = "PROPFIND" ∧ req.path = "/" then
    let rb := inner req
    if rb.code ≠ statusMultiStatus then
      { status := rb.code, body := rb.body, contentLength := cl0, contentType := ct0 }
    else
      let newBody : List Char := msBody quotaBytes dirUsage diskUsage rb.body
      { status := rb.code, body := newBody,
        contentLength := some (utf8Len newBody),
        contentType := some (ct0.getD defaultContentType) }
  else
    let rb := inner req
    { status := rb.code, body := rb.body, contentLength := cl0, contentType := ct0 }

/-!
Directory-usage walk (`dir_usage.go`).  A filesystem tree is modelled by
the mutual inductives below.  `filepath.WalkDir` visits a node and then
its children left to right; the callback in `getDirUsedBytes` turns each
visit into either a size contribution, a skip, or an abort:
a regular file contributes its size; an entry whose `Info` call fails
(it vanished between `ReadDir` and the visit) contributes zero; a
directory contributes nothing itself; a directory whose `ReadDir` fails
is skipped when the failure is not-exist and aborts the whole walk with
the error otherwise (permission denied and the like).  The Boolean in
the result records whether the walk aborted with an error.
-/

mutual
inductive FsNode where
  | file (size : Nat) : FsNode
  | vanishedFile : FsNode
  | unreadableDir (vanished : Bool) : FsNode
  | dir (kids : FsForest) : FsNode
inductive FsForest where
  | nil : FsForest
  | cons (hd : FsNode) (tl : FsForest) : FsForest
end

mutual
/-- Walk of a single visited node, following the `WalkDir` callback in
`getDirUsedBytes`: returns the accumulated total and whether the walk
aborted with an error. -/
def walkSum : FsNode → Nat × Bool
  | .file n => (n, false)
  | .vanishedFile => (0, false)
  | .unreadableDir v => (0, ! v)
  | .dir kids => walkForest kids
/-- Walk of a directory's children in order, stopping at the first
abort. -/
def walkForest : FsForest → Nat × Bool
  | .nil => (0, false)
  | .cons hd tl =>
      match walkSum hd with
      | (n, true) => (n, true)
      | (n, false) =>
          match walkForest tl with
          | (m, e) => (n + m, e)
end

/-- Root of the walk: either an accessible tree, or a root whose initial
stat fails with not-exist, or one whose initial stat fails with another
error such as permission denied. -/
inductive RootFs where
  | root (t : FsNode) : RootFs
  | rootNotExist : RootFs
  | rootDenied : RootFs

/-- Shallow embedding of `getDirUsedBytes`: `WalkDir` reports a failing
root by invoking the callback once with the stat error, which the
callback skips when it is not-exist and propagates otherwise. -/
def getDirUsedBytes : RootFs → Nat × Bool
  | .root t => walkSum t
  | .rootNotExist => (0, false)
  | .rootDenied => (0, true)

mutual
/-- Total size of the plain files in a tree; directory entries and
vanished entries contribute nothing. -/
def sizeSum : FsNode → Nat
  | .file n => n
  | .vanishedFile => 0
  | .unreadableDir _ => 0
  | .dir kids => sizeForest kids
/-- Total size of the plain files in a forest. -/
def sizeForest : FsForest → Nat
  | .nil => 0
  | .cons hd tl => sizeSum hd + sizeForest tl
end

mutual
/-- A tree is clean when no directory in it fails `ReadDir` with an
error other than not-exist. -/
def cleanNode : FsNode → Bool
  | .file _ => true
  | .vanishedFile => true
  | .unreadableDir v => v
  | .dir kids => cleanForest kids
/-- Cleanliness of every tree of a forest. -/
def cleanForest : FsForest → Bool
  | .nil => true
  | .cons hd tl => cleanNode hd && cleanForest tl
end

/-!
Credential store (`pkg/user/user.go`).  The Go map `map[string]*User` is
modelled as an association list with unique keys and `List.lookup`
access.  The external bcrypt collaborator is modelled by its documented
contract: `GenerateFromPassword` produces a salted hash and
`CompareHashAndPassword` succeeds exactly on the password the hash was
generated from; the abstract `Hash` record keeps the salt and the
hashed password so that this contract is definable.
-/

/-- Abstract bcrypt hash value: the salt it was generated with and the
password it commits to. -/
structure Hash where
  salt : Nat
  pw : String
deriving DecidableEq

/-- Contract model of `bcrypt.GenerateFromPassword`. -/
def bcryptGenerate (password : String) (salt : Nat) : Hash :=
  { salt := salt, pw := password }

/-- Contract model of `bcrypt.CompareHashAndPassword`: true exactly when
the candidate password matches the one the hash was generated from. -/
def bcryptCompare (h : Hash) (password : String) : Bool :=
  h.pw == password

/-- User record (`user.go`): username and password hash. -/
structure User where
  Username : String
  PasswordHash : Hash
deriving DecidableEq

/-- In-memory credential store: the `Users` map, as an association list
keyed by username. -/
structure Store where
  Users : List (String × User)
deriving DecidableEq

/-- Fresh store created by `NewStore` when the persisted file does not
exist: an empty mapping. -/
def NewStore : Store := ⟨[]⟩

/-- Core of `Store.Add` with the bcrypt outcome passed explicitly:
reject an already-present username before hashing, propagate a hash
failure, and otherwise insert the new record.  Returns the outcome and
the (possibly updated) store. -/
def Store.AddCore (s : Store) (username : String) (gen : Except String Hash) :
    Except String Unit × Store :=
  if (s.Users.lookup username).isSome then
    (.error ("user " ++ username ++ " already exists"), s)
  else
    match gen with
    | .error e => (.error e, s)
    | .ok h => (.ok (), ⟨(username, { Username := username, PasswordHash := h }) :: s.Users⟩)

/-- Shallow embedding of `Store.Add` (`user.go` lines 90-111), with the
bcrypt salt passed as an oracle. -/
def Store.Add (s : Store) (username password : String) (salt : Nat) :
    Except String Unit × Store :=
  Store.AddCore s username (.ok (bcryptGenerate password salt))

/-- Shallow embedding of `Store.Delete`: remove the entry when present,
no-op otherwise. -/
def Store.Delete (s : Store) (username : String) : Store :=
  ⟨s.Users.filter (fun kv => ! (kv.1 == username))⟩

/-- Shallow embedding of `Store.Authenticate`: false for an absent
username, otherwise the bcrypt comparison. -/
def Store.Authenticate (s : Store) (username password : String) : Bool :=
  match s.Users.lookup username with
  | none => false
  | some u => bcryptCompare u.PasswordHash password

/-- Serialized form of the store produced by `Save`:
`json.MarshalIndent` emits the map as a JSON object with its keys in
sorted order. -/
def marshalStore (s : Store) : List (String × User) :=
  s.Users.mergeSort (fun a b => decide (a.1 ≤ b.1))

/-- Map assignment `m[k] = v` on the association-list model: replace
the existing binding or prepend a fresh one. -/
def mapSet (m : List (String × User)) (k : String) (v : User) :
    List (String × User) :=
  if (m.lookup k).isSome then
    m.map (fun kv => if kv.1 = k then (k, v) else kv)
  else (k, v) :: m

/-- Deserialization performed by `load`: `json.Unmarshal` inserts the
serialized object's entries into a fresh map in order. -/
def unmarshalStore (l : List (String × User)) : Store :=
  ⟨l.foldl (fun m kv => mapSet m kv.1 kv.2) []⟩

/-- Keys of the store mapping. -/
def storeKeys (s : Store) : List String := s.Users.map Prod.fst

/-- Invariant relating map keys to the records they hold: every key maps
to a record whose `Username` field is that key. -/
def wellNamed (s : Store) : Prop :=
  ∀ kv ∈ s.Users, kv.2.Username = kv.1

/-!
Helper lemmas.
-/

theorem sub64_eq (a b : Nat) (hba : b ≤ a) (ha : a < W64) : sub64 a b = a - b := by
  have h1 : a + W64 - b = (a - b) + W64 := by omega
  have h2 : a - b < W64 := by omega
  rw [sub64, h1, Nat.add_mod_right, Nat.mod_eq_of_lt h2]

theorem quotaMiddleware_ms (quotaBytes : Nat) (dirUsage : Except String Nat)
    (diskUsage : Except String (Nat × Nat)) (inner : Request → BufferedResponse)
    (ct0 : Option String) (cl0 : Option Nat) (req : Request)
    (hm : req.method = "PROPFIND") (hp : req.path = "/")
    (hc : (inner req).code = statusMultiStatus) :
    quotaMiddleware quotaBytes dirUsage diskUsage inner ct0 cl0 req =
      { status := statusMultiStatus,
        body := msBody quotaBytes dirUsage diskUsage (inner req).body,
        contentLength := some (utf8Len (msBody quotaBytes dirUsage diskUsage (inner req).body)),
        contentType := some (ct0.getD defaultContentType) } := by
  have h1 : req.method = "PROPFIND" ∧ req.path = "/" := ⟨hm, hp⟩
  simp [quotaMiddleware, h1, hc]

/-!
Claim theorems.
-/

/-- C1: under a configured quota whose value fits in `uint64`, when the
directory-usage computation succeeds the middleware reports
`used = min(dirUsed, quotaBytes)` and `free = quotaBytes - used`, so the
free count is at most the quota (never negative) and the `uint64`
subtraction it is computed with never wraps. -/
theorem quota_clamp_correct (quotaBytes dirUsed : Nat) (hq : 0 < quotaBytes)
    (hqw : quotaBytes < W64) :
    quotaFigures quotaBytes dirUsed =
      (min dirUsed quotaBytes, quotaBytes - min dirUsed quotaBytes) ∧
    quotaBytes - min dirUsed quotaBytes ≤ quotaBytes ∧
    sub64 quotaBytes (min dirUsed quotaBytes) = quotaBytes - min dirUsed quotaBytes := by
  have hmin : min dirUsed quotaBytes ≤ quotaBytes := Nat.min_le_right _ _
  refine ⟨?_, Nat.sub_le _ _, sub64_eq _ _ hmin hqw⟩
  unfold quotaFigures
  by_cases h : dirUsed > quotaBytes
  · have hm1 : min dirUsed quotaBytes = quotaBytes := by omega
    simp [h, hm1, sub64_eq quotaBytes quotaBytes (Nat.le_refl _) hqw]
  · have hm1 : min dirUsed quotaBytes = dirUsed := by omega
    have hge : quotaBytes ≥ dirUsed := by omega
    simp [h, hm1, hge, sub64_eq quotaBytes dirUsed hge hqw]

/-- Witness for C1, covering the two spec examples: quota 10 with dirUsed
15 gives used 10 and free 0; quota 10 with dirUsed 4 gives used 4 and
free 6. -/
theorem quota_clamp_correct_witness :
    quotaFigures 10 15 = (10, 0) ∧ quotaFigures 10 4 = (4, 6) := by
  have h1 := (quota_clamp_correct 10 15 (by decide) (by norm_num [W64])).1
  have h2 := (quota_clamp_correct 10 4 (by decide) (by norm_num [W64])).1
  rw [h1, h2]
  exact ⟨by decide, by decide⟩

/-- C2: for a request whose method is not PROPFIND, or whose path is not
the root, or whose captured status is not 207, the middleware serves the
inner handler's status and body unchanged and touches no header. -/
theorem quota_passthrough (quotaBytes : Nat) (dirUsage : Except String Nat)
    (diskUsage : Except String (Nat × Nat)) (inner : Request → BufferedResponse)
    (ct0 : Option String) (cl0 : Option Nat) (req : Request)
    (h : req.method ≠ "PROPFIND" ∨ req.path ≠ "/" ∨ (inner req).code ≠ statusMultiStatus) :
    quotaMiddleware quotaBytes dirUsage diskUsage inner ct0 cl0 req =
      { status := (inner req).code, body := (inner req).body,
        contentLength := cl0, contentType := ct0 } := by
  by_cases hc : req.method = "PROPFIND" ∧ req.path = "/"
  · have hcode : (inner req).code ≠ statusMultiStatus := by tauto
    simp [quotaMiddleware, hc, hcode]
  · simp [quotaMiddleware, hc]

/-- Witness for C2: a GET request passes through byte-identically. -/
theorem quota_passthrough_witness :
    quotaMiddleware 5 (Except.ok 1) (Except.error "e")
      (fun _ => { code := 200, body := "ok".toList }) none none
      { method := "GET", path := "/" } =
      { status := 200, body := "ok".toList, contentLength := none, contentType := none } :=
  quota_passthrough 5 (Except.ok 1) (Except.error "e")
    (fun _ => { code := 200, body := "ok".toList }) none none
    { method := "GET", path := "/" } (Or.inl (by decide))

/-- C4: on the multi-status root PROPFIND path, whether or not quota
elements were injected, the Content-Length header equals the exact byte
length of the served body, and the default content type is set only when
none was present. -/
theorem content_length_exact (quotaBytes : Nat) (dirUsage : Except String Nat)
    (diskUsage : Except String (Nat × Nat)) (inner : Request → BufferedResponse)
    (ct0 : Option String) (cl0 : Option Nat) (req : Request)
    (hm : req.method = "PROPFIND") (hp : req.path = "/")
    (hc : (inner req).code = statusMultiStatus) :
    (quotaMiddleware quotaBytes dirUsage diskUsage inner ct0 cl0 req).contentLength =
      some (utf8Len (quotaMiddleware quotaBytes dirUsage diskUsage inner ct0 cl0 req).body) ∧
    (ct0 = none →
      (quotaMiddleware quotaBytes dirUsage diskUsage inner ct0 cl0 req).contentType =
        some defaultContentType) ∧
    (∀ t, ct0 = some t →
      (quotaMiddleware quotaBytes dirUsage diskUsage inner ct0 cl0 req).contentType = some t) := by
  rw [quotaMiddleware_ms quotaBytes dirUsage diskUsage inner ct0 cl0 req hm hp hc]
  refine ⟨rfl, ?_, ?_⟩
  · intro h0
    simp [h0]
  · intro t ht
    simp [ht]

/-- Witness for C4: a concrete multi-status response with no prior
content type gets the exact length of the rewritten body and the default
content type. -/
theorem content_length_exact_witness :
    (quotaMiddleware 10 (Except.ok 4) (Except.error "e")
        (fun _ => { code := 207, body := "</prop>".toList }) none none
        { method := "PROPFIND", path := "/" }).contentLength =
      some (utf8Len (quotaMiddleware 10 (Except.ok 4) (Except.error "e")
        (fun _ => { code := 207, body := "</prop>".toList }) none none
        { method := "PROPFIND", path := "/" }).body) ∧
    (quotaMiddleware 10 (Except.ok 4) (Except.error "e")
        (fun _ => { code := 207, body := "</prop>".toList }) none none
        { method := "PROPFIND", path := "/" }).contentType = some defaultContentType := by
  have h := content_length_exact 10 (Except.ok 4) (Except.error "e")
    (fun _ => { code := 207, body := "</prop>".toList }) none none
    { method := "PROPFIND", path := "/" } rfl rfl rfl
  exact ⟨h.1, h.2.1 rfl⟩

/-- C6: on the multi-status root PROPFIND path, when the selected usage
provider fails, the middleware serves the original buffered body
unmodified with the captured multi-status code. -/
theorem quota_fail_open (quotaBytes : Nat) (dirUsage : Except String Nat)
    (diskUsage : Except String (Nat × Nat)) (inner : Request → BufferedResponse)
    (ct0 : Option String) (cl0 : Option Nat) (req : Request) (e : String)
    (hm : req.method = "PROPFIND") (hp : req.path = "/")
    (hc : (inner req).code = statusMultiStatus)
    (he : (0 < quotaBytes ∧ dirUsage = Except.error e) ∨
      (quotaBytes = 0 ∧ diskUsage = Except.error e)) :
    (quotaMiddleware quotaBytes dirUsage diskUsage inner ct0 cl0 req).status =
      statusMultiStatus ∧
    (quotaMiddleware quotaBytes dirUsage diskUsage inner ct0 cl0 req).body =
      (inner req).body := by
  rw [quotaMiddleware_ms quotaBytes dirUsage diskUsage inner ct0 cl0 req hm hp hc]
  refine ⟨rfl, ?_⟩
  rcases he with ⟨hq, hd⟩ | ⟨hq, hd⟩
  · simp [msBody, msUsage, hq, hd]
  · simp [msBody, msUsage, hq, hd]

/-- Witness for C6: a failing directory-usage call under a configured
quota leaves the body unmodified. -/
theorem quota_fail_open_witness :
    (quotaMiddleware 10 (Except.error "boom") (Except.ok (1, 2))
        (fun _ => { code := 207, body := "</prop>".toList }) none none
        { method := "PROPFIND", path := "/" }).status = statusMultiStatus ∧
    (quotaMiddleware 10 (Except.error "boom") (Except.ok (1, 2))
        (fun _ => { code := 207, body := "</prop>".toList }) none none
        { method := "PROPFIND", path := "/" }).body = "</prop>".toList :=
  quota_fail_open 10 (Except.error "boom") (Except.ok (1, 2))
    (fun _ => { code := 207, body := "</prop>".toList }) none none
    { method := "PROPFIND", path := "/" } "boom" rfl rfl rfl
    (Or.inl ⟨by decide, rfl⟩)

/-- A string is never equal to itself extended by one character. -/
theorem self_ne_append_x (p : String) : p ≠ p ++ "x" := by
  intro h
  have hl := congrArg String.length h
  rw [String.length_append] at hl
  have : String.length "x" = 1 := rfl
  omega

/-- C7: adding an absent username succeeds; immediately afterwards the
added password authenticates and the password extended by an extra
character does not; moreover an absent username never authenticates, so
the Boolean result does not tell an unknown user from a wrong
password. -/
theorem add_then_authenticate (s : Store) (u p q : String) (salt : Nat)
    (habs : s.Users.lookup u = none) :
    (s.Add u p salt).1 = Except.ok () ∧
    (s.Add u p salt).2.Authenticate u p = true ∧
    (s.Add u p salt).2.Authenticate u (p ++ "x") = false ∧
    s.Authenticate u q = false := by
  have hnone : (s.Users.lookup u).isSome = false := by rw [habs]; rfl
  have hstore : (s.Add u p salt).2 =
      ⟨(u, { Username := u, PasswordHash := bcryptGenerate p salt }) :: s.Users⟩ := by
    simp [Store.Add, Store.AddCore, hnone]
  refine ⟨?_, ?_, ?_, ?_⟩
  · simp [Store.Add, Store.AddCore, hnone]
  · rw [hstore]
    simp [Store.Authenticate, List.lookup, bcryptCompare, bcryptGenerate]
  · rw [hstore]
    simp [Store.Authenticate, List.lookup, bcryptCompare, bcryptGenerate, self_ne_append_x p]
  · simp [Store.Authenticate, habs]

/-- Witness for C7 on a concrete store. -/
theorem add_then_authenticate_witness :
    ((NewStore.Add "alice" "pw" 7).1 = Except.ok ()) ∧
    (NewStore.Add "alice" "pw" 7).2.Authenticate "alice" "pw" = true ∧
    (NewStore.Add "alice" "pw" 7).2.Authenticate "alice" ("pw" ++ "x") = false ∧
    NewStore.Authenticate "alice" "zzz" = false :=
  add_then_authenticate NewStore "alice" "pw" "zzz" 7 rfl

/-- C8: adding an already-present username fails with an error and
leaves the store, in particular the existing record, unchanged; and when
hash generation fails the error is propagated with no entry added or
modified. -/
theorem add_existing_unchanged (s : Store) (u p : String) (salt : Nat) (r : User)
    (s2 : Store) (u2 e : String)
    (hpres : s.Users.lookup u = some r) (habs2 : s2.Users.lookup u2 = none) :
    s.Add u p salt = (Except.error ("user " ++ u ++ " already exists"), s) ∧
    (s.Add u p salt).2.Users.lookup u = some r ∧
    Store.AddCore s2 u2 (Except.error e) = (Except.error e, s2) := by
  have hsome : (s.Users.lookup u).isSome = true := by rw [hpres]; rfl
  have hnone2 : (s2.Users.lookup u2).isSome = false := by rw [habs2]; rfl
  have h1 : s.Add u p salt = (Except.error ("user " ++ u ++ " already exists"), s) := by
    simp [Store.Add, Store.AddCore, hsome]
  refine ⟨h1, ?_, ?_⟩
  · rw [h1]
    exact hpres
  · simp [Store.AddCore, hnone2]

/-- Witness for C8 on a concrete store. -/
theorem add_existing_unchanged_witness :
    (NewStore.Add "bob" "pw" 3).2.Add "bob" "other" 4 =
      (Except.error ("user " ++ "bob" ++ " already exists"), (NewStore.Add "bob" "pw" 3).2) ∧
    Store.AddCore NewStore "carol" (Except.error "hash failure") =
      (Except.error "hash failure", NewStore) := by
  have h := add_existing_unchanged (NewStore.Add "bob" "pw" 3).2 "bob" "other" 4
    { Username := "bob", PasswordHash := bcryptGenerate "pw" 3 } NewStore "carol"
    "hash failure" (by simp [NewStore, Store.Add, Store.AddCore, List.lookup]) rfl
  exact ⟨h.1, h.2.2⟩

/-- C10: the key-names-record invariant holds for a fresh empty store
and is preserved by every Add and every Delete. -/
theorem store_wellNamed_invariant (s : Store) (u v p : String) (salt : Nat)
    (h : wellNamed s) :
    wellNamed NewStore ∧ wellNamed (s.Add u p salt).2 ∧ wellNamed (s.Delete v) := by
  refine ⟨?_, ?_, ?_⟩
  · intro kv hkv
    simp [NewStore] at hkv
  · by_cases hc : (s.Users.lookup u).isSome
    · have : (s.Add u p salt).2 = s := by simp [Store.Add, Store.AddCore, hc]
      rw [this]
      exact h
    · have hst : (s.Add u p salt).2 =
          ⟨(u, { Username := u, PasswordHash := bcryptGenerate p salt }) :: s.Users⟩ := by
        simp [Store.Add, Store.AddCore, hc]
      rw [hst]
      intro kv hkv
      rcases List.mem_cons.mp hkv with heq | hmem
      · rw [heq]
      · exact h kv hmem
  · intro kv hkv
    exact h kv (List.mem_of_mem_filter hkv)

/-- Witness for C10 on a concrete store. -/
theorem store_wellNamed_invariant_witness :
    wellNamed NewStore ∧
    wellNamed ((NewStore.Add "dave" "pw" 1).2.Add "erin" "pw2" 2).2 ∧
    wellNamed ((NewStore.Add "dave" "pw" 1).2.Delete "dave") := by
  have base : wellNamed (NewStore.Add "dave" "pw" 1).2 := by
    have h0 : wellNamed NewStore := by
      intro kv hkv
      simp [NewStore] at hkv
    exact (store_wellNamed_invariant NewStore "dave" "x" "pw" 1 h0).2.1
  have h := store_wellNamed_invariant (NewStore.Add "dave" "pw" 1).2 "erin" "dave" "pw2" 2 base
  exact ⟨h.1, h.2.1, h.2.2⟩

mutual
/-- A walk of a clean tree sums exactly the file sizes and does not
abort. -/
theorem walkSum_clean : ∀ t : FsNode, cleanNode t = true → walkSum t = (sizeSum t, false)
  | .file n, _ => rfl
  | .vanishedFile, _ => rfl
  | .unreadableDir v, h => by
      cases v with
      | true => rfl
      | false => simp [cleanNode] at h
  | .dir kids, h => by
      have hk : cleanForest kids = true := by simpa [cleanNode] using h
      have := walkForest_clean kids hk
      simpa [walkSum, sizeSum] using this
/-- A walk of a clean forest sums exactly the file sizes and does not
abort. -/
theorem walkForest_clean : ∀ f : FsForest, cleanForest f = true →
    walkForest f = (sizeForest f, false)
  | .nil, _ => rfl
  | .cons hd tl, h => by
      have h1 : cleanNode hd = true := by
        have := h
        simp [cleanForest, Bool.and_eq_true] at this
        exact this.1
      have h2 : cleanForest tl = true := by
        have := h
        simp [cleanForest, Bool.and_eq_true] at this
        exact this.2
      have e1 := walkSum_clean hd h1
      have e2 := walkForest_clean tl h2
      simp [walkForest, sizeForest, e1, e2]
end

mutual
/-- A walk of a tree containing a directory that fails to read with an
error other than not-exist aborts with an error. -/
theorem walkSum_dirty : ∀ t : FsNode, cleanNode t = false → (walkSum t).2 = true
  | .file _, h => by simp [cleanNode] at h
  | .vanishedFile, h => by simp [cleanNode] at h
  | .unreadableDir v, h => by
      cases v with
      | true => simp [cleanNode] at h
      | false => rfl
  | .dir kids, h => by
      have hk : cleanForest kids = false := by simpa [cleanNode] using h
      have := walkForest_dirty kids hk
      simpa [walkSum] using this
/-- A walk of a forest containing such a directory aborts with an
error. -/
theorem walkForest_dirty : ∀ f : FsForest, cleanForest f = false → (walkForest f).2 = true
  | .nil, h => by simp [cleanForest] at h
  | .cons hd tl, h => by
      by_cases hc : cleanNode hd = true
      · have h2 : cleanForest tl = false := by
          simp [cleanForest, hc] at h
          exact h
        have e1 := walkSum_clean hd hc
        have e2 := walkForest_dirty tl h2
        cases hw : walkForest tl with
        | mk m e =>
            rw [hw] at e2
            simp at e2
            simp [walkForest, e1, hw, e2]
      · have h1 : cleanNode hd = false := by
          cases hcn : cleanNode hd with
          | true => exact absurd hcn hc
          | false => rfl
        have e1 := walkSum_dirty hd h1
        cases hw : walkSum hd with
        | mk n e =>
            rw [hw] at e1
            simp at e1
            simp [walkForest, hw, e1]
end

/-- C5 counterexample: the claim that permission-denied entries
contribute zero without erroring, and that only an inaccessible root
aborts, fails on the code.  A tree whose root is accessible but holds a
permission-denied subdirectory (followed by a 5-byte file the abort
never reaches) makes the walk return an error, and a nonexistent root
returns zero without an error instead of aborting. -/
theorem dir_usage_cex :
    getDirUsedBytes (.root (.dir (.cons (.unreadableDir false) (.cons (.file 5) .nil)))) =
      (0, true) ∧
    getDirUsedBytes .rootNotExist = (0, false) := by
  exact ⟨rfl, rfl⟩

/-- C5 (amended): the walk sums the sizes of all files beneath the root
without counting directory entries; entries that vanish mid-walk
(not-exist errors, including a nonexistent root) contribute zero without
erroring; any walk error other than not-exist — a permission-denied
directory anywhere in the tree, or a non-not-exist failure to access the
root — aborts the computation with an error. -/
theorem dir_usage_amended :
    (∀ t : FsNode, cleanNode t = true → walkSum t = (sizeSum t, false)) ∧
    (∀ t : FsNode, cleanNode t = false → (walkSum t).2 = true) ∧
    getDirUsedBytes .rootNotExist = (0, false) ∧
    getDirUsedBytes .rootDenied = (0, true) :=
  ⟨walkSum_clean, walkSum_dirty, rfl, rfl⟩

/-- Witness for the amended C5: a clean tree with two files, a vanished
entry and a nested directory sums to 12 without error, and a tree with a
permission-denied directory aborts. -/
theorem dir_usage_amended_witness :
    walkSum (.dir (.cons (.file 5) (.cons .vanishedFile
        (.cons (.dir (.cons (.file 7) .nil)) .nil)))) = (12, false) ∧
    (walkSum (.dir (.cons (.file 5) (.cons (.unreadableDir false) .nil)))).2 = true := by
  have h1 := dir_usage_amended.1
    (.dir (.cons (.file 5) (.cons .vanishedFile (.cons (.dir (.cons (.file 7) .nil)) .nil))))
    (by decide)
  have h2 := dir_usage_amended.2.1
    (.dir (.cons (.file 5) (.cons (.unreadableDir false) .nil))) (by decide)
  rw [h1]
  exact ⟨by decide, h2⟩

/-- Spec-side predicate: the body carries, at this position, a closing
tag whose name lies in the tag character class and ends in `prop`. -/
def propTagAt (cs : List Char) : Prop :=
  ∃ run : List Char, (∀ c ∈ run, isTagChar c = true) ∧
    ('<' :: '/' :: (run ++ "prop>".toList)) <+: cs

/-- Spec-side predicate: the body contains a namespace declaration
binding the nonempty word-character run `p` to the DAV: namespace. -/
def nsDeclProp (body p : List Char) : Prop :=
  p ≠ [] ∧ (∀ c ∈ p, isWordChar c = true) ∧
    ∃ i : Nat, ("xmlns:".toList ++ p ++ "=\"DAV:\"".toList) <+: body.drop i

/-- Spec-side predicate: the body carries, at position `i`, a namespace
declaration binding the nonempty word-character run `p` to the DAV:
namespace. -/
def nsDeclPropAt (body : List Char) (i : Nat) (p : List Char) : Prop :=
  p ≠ [] ∧ (∀ c ∈ p, isWordChar c = true) ∧
    ("xmlns:".toList ++ p ++ "=\"DAV:\"".toList) <+: body.drop i

theorem beginsWith_iff (p cs : List Char) : beginsWith p cs = true ↔ p <+: cs := by
  induction p generalizing cs with
  | nil => simp [beginsWith]
  | cons a ps ih =>
      cases cs with
      | nil => simp [beginsWith]
      | cons c cs2 =>
          simp [beginsWith, ih, List.cons_prefix_cons, beq_iff_eq, Bool.and_eq_true]

theorem propCloseTail_iff (cs : List Char) :
    propCloseTail cs = true ↔
      ∃ run : List Char, (∀ c ∈ run, isTagChar c = true) ∧
        (run ++ "prop>".toList) <+: cs := by
  induction cs with
  | nil =>
      constructor
      · intro h
        simp [propCloseTail] at h
      · rintro ⟨run, _, hpre⟩
        have := hpre.length_le
        simp at this
  | cons c rest ih =>
      constructor
      · intro h
        rw [propCloseTail, Bool.or_eq_true] at h
        rcases h with h1 | h2
        · exact ⟨[], by simp, by simpa using (beginsWith_iff _ _).mp h1⟩
        · rw [Bool.and_eq_true] at h2
          obtain ⟨hc, ht⟩ := h2
          obtain ⟨run, hall, hpre⟩ := ih.mp ht
          refine ⟨c :: run, ?_, ?_⟩
          · intro x hx
            rcases List.mem_cons.mp hx with rfl | hx
            · exact hc
            · exact hall x hx
          · rw [List.cons_append, List.cons_prefix_cons]
            exact ⟨rfl, hpre⟩
      · rintro ⟨run, hall, hpre⟩
        cases run with
        | nil =>
            rw [propCloseTail, Bool.or_eq_true]
            have h1 : beginsWith ("prop>".toList) (c :: rest) = true :=
              (beginsWith_iff _ _).mpr (by simpa using hpre)
            exact Or.inl h1
        | cons r rs =>
            rw [List.cons_append, List.cons_prefix_cons] at hpre
            obtain ⟨rfl, hpre2⟩ := hpre
            rw [propCloseTail]
            have hct : isTagChar r = true := hall r (List.mem_cons_self _ _)
            have hts : propCloseTail rest = true :=
              ih.mpr ⟨rs, fun x hx => hall x (List.mem_cons_of_mem _ hx), hpre2⟩
            simp [hct, hts]

theorem propCloseAt_iff (cs : List Char) : propCloseAt cs = true ↔ propTagAt cs := by
  unfold propTagAt
  constructor
  · intro h
    unfold propCloseAt at h
    split at h
    · next rest =>
        obtain ⟨run, hall, hpre⟩ := (propCloseTail_iff rest).mp h
        refine ⟨run, hall, ?_⟩
        rw [List.cons_prefix_cons]
        refine ⟨rfl, ?_⟩
        rw [List.cons_prefix_cons]
        exact ⟨rfl, hpre⟩
    · exact absurd h (by simp)
  · rintro ⟨run, hall, hpre⟩
    obtain ⟨t, rfl⟩ := hpre
    show propCloseTail ((run ++ "prop>".toList) ++ t) = true
    exact (propCloseTail_iff _).mpr ⟨run, hall, List.prefix_append _ _⟩

theorem findPropClose_none (body : List Char) (h : findPropClose body = none) :
    ∀ i : Nat, propCloseAt (body.drop i) = false := by
  induction body with
  | nil =>
      intro i
      rw [List.drop_nil]
      rfl
  | cons c rest ih =>
      rw [findPropClose] at h
      by_cases hc : propCloseAt (c :: rest) = true
      · simp [hc] at h
      · have hfalse : propCloseAt (c :: rest) = false := by
          cases hcc : propCloseAt (c :: rest) with
          | true => exact absurd hcc hc
          | false => rfl
        rw [if_neg (by simp [hfalse])] at h
        have hrest : findPropClose rest = none := by
          cases hfr : findPropClose rest with
          | none => rfl
          | some k => rw [hfr] at h; simp at h
        intro i
        cases i with
        | zero => simpa using hfalse
        | succ n => simpa using ih hrest n

theorem findPropClose_some (body : List Char) (i : Nat) (h : findPropClose body = some i) :
    propCloseAt (body.drop i) = true ∧
      ∀ j : Nat, j < i → propCloseAt (body.drop j) = false := by
  induction body generalizing i with
  | nil => simp [findPropClose] at h
  | cons c rest ih =>
      rw [findPropClose] at h
      by_cases hc : propCloseAt (c :: rest) = true
      · rw [if_pos (by simp [hc])] at h
        obtain rfl : i = 0 := by
          have := h
          simp at this
          omega
        exact ⟨by simpa using hc, by intro j hj; omega⟩
      · have hfalse : propCloseAt (c :: rest) = false := by
          cases hcc : propCloseAt (c :: rest) with
          | true => exact absurd hcc hc
          | false => rfl
        rw [if_neg (by simp [hfalse])] at h
        obtain ⟨k, hk, rfl⟩ : ∃ k, findPropClose rest = some k ∧ k + 1 = i := by
          cases hfr : findPropClose rest with
          | none => rw [hfr] at h; simp at h
          | some k =>
              rw [hfr] at h
              simp at h
              exact ⟨k, rfl, h⟩
        obtain ⟨h1, h2⟩ := ih k hk
        constructor
        · simpa using h1
        · intro j hj
          cases j with
          | zero => simpa using hfalse
          | succ n => simpa using h2 n (by omega)

theorem findPropClose_eq_of (body : List Char) (i : Nat)
    (h1 : propCloseAt (body.drop i) = true)
    (h2 : ∀ j : Nat, j < i → propCloseAt (body.drop j) = false) :
    findPropClose body = some i := by
  cases hfp : findPropClose body with
  | none =>
      have := findPropClose_none body hfp i
      rw [h1] at this
      exact absurd this (by simp)
  | some k =>
      obtain ⟨hk1, hk2⟩ := findPropClose_some body k hfp
      rcases Nat.lt_trichotomy k i with hlt | rfl | hgt
      · have := h2 k hlt
        rw [hk1] at this
        exact absurd this (by simp)
      · rfl
      · have := hk2 i hgt
        rw [h1] at this
        exact absurd this (by simp)

theorem nsDeclAt_some (cs p : List Char) (h : nsDeclAt cs = some p) :
    p ≠ [] ∧ (∀ c ∈ p, isWordChar c = true) ∧
      ("xmlns:".toList ++ p ++ "=\"DAV:\"".toList) <+: cs := by
  unfold nsDeclAt at h
  by_cases h1 : beginsWith ("xmlns:".toList) cs = true
  · rw [if_pos h1] at h
    by_cases h2 : ((cs.drop 6).takeWhile isWordChar ≠ [] &&
        beginsWith ("=\"DAV:\"".toList)
          ((cs.drop 6).drop ((cs.drop 6).takeWhile isWordChar).length)) = true
    · rw [if_pos h2] at h
      obtain rfl : (cs.drop 6).takeWhile isWordChar = p := by simpa using h
      rw [Bool.and_eq_true] at h2
      obtain ⟨hne, hpre2⟩ := h2
      have hnep : (cs.drop 6).takeWhile isWordChar ≠ [] := by simpa using hne
      refine ⟨hnep, fun c hc => List.mem_takeWhile_imp hc, ?_⟩
      obtain ⟨t1, ht1⟩ := (beginsWith_iff _ _).mp h1
      have ht1len : ("xmlns:".toList).length = 6 := rfl
      have hdrop : cs.drop 6 = t1 := by
        rw [← ht1, List.drop_left' ht1len]
      obtain ⟨t2, ht2⟩ := List.takeWhile_prefix (l := cs.drop 6) isWordChar
      have ht2' := List.drop_left ((cs.drop 6).takeWhile isWordChar) t2
      rw [ht2] at ht2'
      rw [ht2'] at hpre2
      obtain ⟨t3, ht3⟩ := (beginsWith_iff _ _).mp hpre2
      refine ⟨t3, ?_⟩
      calc (("xmlns:".toList ++ (cs.drop 6).takeWhile isWordChar) ++ "=\"DAV:\"".toList) ++ t3
          = "xmlns:".toList ++ ((cs.drop 6).takeWhile isWordChar ++ ("=\"DAV:\"".toList ++ t3)) := by
            simp [List.append_assoc]
        _ = "xmlns:".toList ++ ((cs.drop 6).takeWhile isWordChar ++ t2) := by rw [ht3]
        _ = "xmlns:".toList ++ cs.drop 6 := by rw [ht2]
        _ = "xmlns:".toList ++ t1 := by rw [hdrop]
        _ = cs := ht1
    · rw [if_neg h2] at h
      simp at h
  · rw [if_neg h1] at h
    simp at h

theorem findNsPfx_some (body p : List Char) (h : findNsPfx body = some p) :
    nsDeclProp body p := by
  induction body with
  | nil => simp [findNsPfx] at h
  | cons c rest ih =>
      rw [findNsPfx] at h
      cases hns : nsDeclAt (c :: rest) with
      | some q =>
          rw [hns] at h
          obtain rfl : q = p := by simpa using h
          obtain ⟨h1, h2, h3⟩ := nsDeclAt_some _ _ hns
          exact ⟨h1, h2, 0, by simpa using h3⟩
      | none =>
          rw [hns] at h
          obtain ⟨h1, h2, i, h3⟩ := ih h
          exact ⟨h1, h2, i + 1, by simpa using h3⟩

theorem takeWhile_append_stop (l1 l2 : List Char)
    (h1 : ∀ c ∈ l1, isWordChar c = true)
    (h2 : ∀ c0, l2.head? = some c0 → isWordChar c0 = false) :
    (l1 ++ l2).takeWhile isWordChar = l1 := by
  induction l1 with
  | nil =>
      cases l2 with
      | nil => rfl
      | cons c r =>
          have hc := h2 c rfl
          simp [List.takeWhile_cons, hc]
  | cons a t ih =>
      have ha : isWordChar a = true := h1 a (List.mem_cons_self _ _)
      simp only [List.cons_append, List.takeWhile_cons, ha, if_true]
      rw [ih (fun c hc => h1 c (List.mem_cons_of_mem _ hc))]

theorem nsDeclAt_complete (cs p : List Char) (hne : p ≠ [])
    (hall : ∀ c ∈ p, isWordChar c = true)
    (hpre : ("xmlns:".toList ++ p ++ "=\"DAV:\"".toList) <+: cs) :
    nsDeclAt cs = some p := by
  obtain ⟨t, ht⟩ := hpre
  have hcs : cs = "xmlns:".toList ++ (p ++ ("=\"DAV:\"".toList ++ t)) := by
    rw [← ht]
    simp [List.append_assoc]
  have hbegin : beginsWith ("xmlns:".toList) cs = true :=
    (beginsWith_iff _ _).mpr ⟨p ++ ("=\"DAV:\"".toList ++ t), hcs.symm⟩
  have hdrop : cs.drop 6 = p ++ ("=\"DAV:\"".toList ++ t) := by
    rw [hcs]
    exact List.drop_left' (by rfl)
  have hhead : ∀ c0, ("=\"DAV:\"".toList ++ t).head? = some c0 → isWordChar c0 = false := by
    intro c0 hc0
    have he : ("=\"DAV:\"".toList ++ t).head? = some '=' := rfl
    rw [he] at hc0
    cases hc0
    decide
  have htw : (cs.drop 6).takeWhile isWordChar = p := by
    rw [hdrop]
    exact takeWhile_append_stop p _ hall hhead
  have hdrop2 : (cs.drop 6).drop ((cs.drop 6).takeWhile isWordChar).length =
      "=\"DAV:\"".toList ++ t := by
    rw [htw, hdrop]
    exact List.drop_left _ _
  have hb2 : beginsWith ("=\"DAV:\"".toList)
      ((cs.drop 6).drop ((cs.drop 6).takeWhile isWordChar).length) = true := by
    rw [hdrop2]
    exact (beginsWith_iff _ _).mpr (List.prefix_append _ _)
  have hcond : ((cs.drop 6).takeWhile isWordChar ≠ [] &&
      beginsWith ("=\"DAV:\"".toList)
        ((cs.drop 6).drop ((cs.drop 6).takeWhile isWordChar).length)) = true := by
    rw [Bool.and_eq_true]
    constructor
    · rw [htw]
      simpa using hne
    · exact hb2
  unfold nsDeclAt
  rw [if_pos hbegin, if_pos hcond, htw]

theorem findNsPfx_eq_of (body : List Char) (i : Nat) (p : List Char)
    (h1 : nsDeclAt (body.drop i) = some p)
    (h2 : ∀ j : Nat, j < i → nsDeclAt (body.drop j) = none) :
    findNsPfx body = some p := by
  induction body generalizing i with
  | nil =>
      have hnil : nsDeclAt ([] : List Char) = none := rfl
      rw [List.drop_nil, hnil] at h1
      exact absurd h1 (by simp)
  | cons c rest ih =>
      cases i with
      | zero =>
          rw [List.drop_zero] at h1
          rw [findNsPfx, h1]
      | succ n =>
          have h0 : nsDeclAt (c :: rest) = none := by
            have := h2 0 (Nat.succ_pos n)
            simpa using this
          rw [findNsPfx, h0]
          show findNsPfx rest = some p
          apply ih n
          · simpa using h1
          · intro j hj
            have := h2 (j + 1) (by omega)
            simpa using this

/-- C3: the namespace tag of the injected elements is the prefix the
body declares for the DAV: namespace — a body with no declaration uses
the default `D`, and a body whose earliest declaration binds `p` uses
exactly `p` — with the scanner's result always naming a real
declaration; the two quota elements are spliced immediately before the
first closing tag whose name ends in `prop`, whatever its namespace
qualifier; and when no such closing tag exists the body is left
unmodified. -/
theorem quota_injection_correct (free used : Nat) (body : List Char) :
    (findNsPfx body = none → davPfx body = ['D']) ∧
    (∀ p, findNsPfx body = some p → davPfx body = p ∧ nsDeclProp body p) ∧
    ((∀ i : Nat, ∀ p : List Char, ¬ nsDeclPropAt body i p) → davPfx body = ['D']) ∧
    (∀ i : Nat, ∀ p : List Char, nsDeclPropAt body i p →
      (∀ j : Nat, j < i → ∀ q : List Char, ¬ nsDeclPropAt body j q) →
      davPfx body = p) ∧
    ((∀ i : Nat, ¬ propTagAt (body.drop i)) → injectQuota free used body = body) ∧
    (∀ i : Nat, propTagAt (body.drop i) →
      (∀ j : Nat, j < i → ¬ propTagAt (body.drop j)) →
      injectQuota free used body =
        body.take i ++ quotaXML (davPfx body) free used ++ body.drop i) := by
  refine ⟨?_, ?_, ?_, ?_, ?_, ?_⟩
  · intro h
    simp [davPfx, h]
  · intro p hp
    exact ⟨by simp [davPfx, hp], findNsPfx_some body p hp⟩
  · intro h
    cases hf : findNsPfx body with
    | none => simp [davPfx, hf]
    | some p =>
        obtain ⟨hne, hall, i, hpre⟩ := findNsPfx_some body p hf
        exact absurd ⟨hne, hall, hpre⟩ (h i p)
  · intro i p hdecl hmin
    obtain ⟨hne, hall, hpre⟩ := hdecl
    have h1 : nsDeclAt (body.drop i) = some p := nsDeclAt_complete _ _ hne hall hpre
    have h2 : ∀ j : Nat, j < i → nsDeclAt (body.drop j) = none := by
      intro j hj
      cases hns : nsDeclAt (body.drop j) with
      | none => rfl
      | some q =>
          obtain ⟨hq1, hq2, hq3⟩ := nsDeclAt_some _ _ hns
          exact absurd ⟨hq1, hq2, hq3⟩ (hmin j hj q)
    have hsome := findNsPfx_eq_of body i p h1 h2
    simp [davPfx, hsome]
  · intro h
    have hnone : findPropClose body = none := by
      cases hfp : findPropClose body with
      | none => rfl
      | some i =>
          have := (findPropClose_some body i hfp).1
          exact absurd ((propCloseAt_iff _).mp this) (h i)
    simp [injectQuota, hnone]
  · intro i h1 hmin
    have hb : propCloseAt (body.drop i) = true := (propCloseAt_iff _).mpr h1
    have hminb : ∀ j : Nat, j < i → propCloseAt (body.drop j) = false := by
      intro j hj
      cases hcc : propCloseAt (body.drop j) with
      | true => exact absurd ((propCloseAt_iff _).mp hcc) (hmin j hj)
      | false => rfl
    have heq := findPropClose_eq_of body i hb hminb
    simp [injectQuota, heq]

/-- Witness for C3: a body declaring prefix `Z` for the DAV: namespace
and containing an unqualified closing `prop` tag resolves the namespace
tag to `Z` and gets the two `Z`-qualified quota elements spliced
immediately before that tag. -/
theorem quota_injection_correct_witness :
    davPfx ("xmlns:Z=\"DAV:\"</prop>".toList) = ['Z'] ∧
    injectQuota 6 4 ("xmlns:Z=\"DAV:\"</prop>".toList) =
      ("xmlns:Z=\"DAV:\"<Z:quota-available-bytes>6</Z:quota-available-bytes><Z:quota-used-bytes>4</Z:quota-used-bytes></prop>".toList) := by
  have hdecl : nsDeclPropAt ("xmlns:Z=\"DAV:\"</prop>".toList) 0 ['Z'] :=
    ⟨by decide, by decide, (beginsWith_iff _ _).mp (by decide)⟩
  have hpfx := (quota_injection_correct 6 4 ("xmlns:Z=\"DAV:\"</prop>".toList)).2.2.2.1 0 ['Z']
    hdecl (fun j hj q _ => absurd hj (Nat.not_lt_zero j))
  have hb : propCloseAt (("xmlns:Z=\"DAV:\"</prop>".toList).drop 14) = true := by decide
  have hmin : ∀ j : Nat, j < 14 →
      propCloseAt (("xmlns:Z=\"DAV:\"</prop>".toList).drop j) = false := by decide
  have h := (quota_injection_correct 6 4 ("xmlns:Z=\"DAV:\"</prop>".toList)).2.2.2.2.2 14
    ((propCloseAt_iff _).mp hb)
    (fun j hj hcontra => by
      have hc1 := (propCloseAt_iff _).mpr hcontra
      rw [hmin j hj] at hc1
      exact absurd hc1 (by simp))
  refine ⟨hpfx, ?_⟩
  rw [h]
  decide

theorem lookup_eq_of_perm (u : String) :
    ∀ {l1 l2 : List (String × User)}, l1.Perm l2 → (l1.map Prod.fst).Nodup →
      l1.lookup u = l2.lookup u := by
  intro l1 l2 hp
  induction hp with
  | nil =>
      intro _
      rfl
  | cons kv hperm ih =>
      intro hn
      simp only [List.map_cons, List.nodup_cons] at hn
      cases hb : u == kv.1 with
      | true => simp [List.lookup, hb]
      | false =>
          simp only [List.lookup, hb]
          exact ih hn.2
  | swap x y t =>
      intro hn
      simp only [List.map_cons, List.nodup_cons, List.mem_cons] at hn
      have hxy : y.1 ≠ x.1 := fun h => hn.1 (Or.inl h)
      cases hb1 : u == y.1 with
      | true =>
          have h1 : u = y.1 := eq_of_beq hb1
          have hb2 : (u == x.1) = false := by
            have hne : u ≠ x.1 := fun h => hxy (h1 ▸ h)
            simp [hne]
          simp [List.lookup, hb1, hb2]
      | false =>
          cases hb2 : u == x.1 with
          | true => simp [List.lookup, hb1, hb2]
          | false => simp [List.lookup, hb1, hb2]
  | trans h1 h2 ih1 ih2 =>
      intro hn
      have hn2 := ((h1.map Prod.fst).nodup_iff).mp hn
      exact (ih1 hn).trans (ih2 hn2)

theorem unmarshal_fold (l : List (String × User)) :
    ∀ acc : List (String × User), (l.map Prod.fst).Nodup →
      (∀ k ∈ l.map Prod.fst, acc.lookup k = none) →
      l.foldl (fun m kv => mapSet m kv.1 kv.2) acc = l.reverse ++ acc := by
  induction l with
  | nil =>
      intro acc _ _
      simp
  | cons kv t ih =>
      intro acc hn hd
      have hfresh : acc.lookup kv.1 = none := hd kv.1 (by simp)
      have hset : mapSet acc kv.1 kv.2 = (kv.1, kv.2) :: acc := by
        simp [mapSet, hfresh]
      rw [List.foldl_cons, hset]
      simp only [List.map_cons, List.nodup_cons] at hn
      have hd' : ∀ k ∈ t.map Prod.fst, ((kv.1, kv.2) :: acc).lookup k = none := by
        intro k hk
        have hne : k ≠ kv.1 := fun h => hn.1 (h ▸ hk)
        have hbeq : (k == kv.1) = false := by simp [hne]
        simp only [List.lookup, hbeq]
        exact hd k (List.mem_cons_of_mem _ hk)
      rw [ih ((kv.1, kv.2) :: acc) hn.2 hd']
      simp

/-- C9: serializing a store as `Save` does and deserializing the result
as a fresh `load` does reproduces an equivalent username-to-record
mapping: every lookup agrees with the original store. -/
theorem save_load_roundtrip (s : Store) (hn : (storeKeys s).Nodup) (u : String) :
    (unmarshalStore (marshalStore s)).Users.lookup u = s.Users.lookup u := by
  have hperm : (marshalStore s).Perm s.Users := List.mergeSort_perm s.Users _
  have hnm : ((marshalStore s).map Prod.fst).Nodup :=
    ((hperm.map Prod.fst).nodup_iff).mpr (by simpa [storeKeys] using hn)
  have hfold := unmarshal_fold (marshalStore s) [] hnm (by intro k _; rfl)
  have hrev : ((marshalStore s).reverse).Perm s.Users :=
    ((marshalStore s).reverse_perm).trans hperm
  have hnrev : (((marshalStore s).reverse).map Prod.fst).Nodup :=
    (((marshalStore s).reverse_perm).map Prod.fst).nodup_iff.mpr hnm
  calc (unmarshalStore (marshalStore s)).Users.lookup u
      = ((marshalStore s).reverse ++ []).lookup u := by
        simp only [unmarshalStore]
        rw [hfold]
    _ = ((marshalStore s).reverse).lookup u := by rw [List.append_nil]
    _ = s.Users.lookup u := lookup_eq_of_perm u hrev hnrev

/-- Witness for C9 on a concrete two-user store. -/
theorem save_load_roundtrip_witness :
    (unmarshalStore (marshalStore
        ⟨[("bob", { Username := "bob", PasswordHash := { salt := 1, pw := "pw1" } }),
          ("amy", { Username := "amy", PasswordHash := { salt := 2, pw := "pw2" } })]⟩)).Users.lookup
        "bob" =
      (Store.mk
        [("bob", { Username := "bob", PasswordHash := { salt := 1, pw := "pw1" } }),
          ("amy", { Username := "amy", PasswordHash := { salt := 2, pw := "pw2" } })]).Users.lookup
        "bob" :=
  save_load_roundtrip
    ⟨[("bob", { Username := "bob", PasswordHash := { salt := 1, pw := "pw1" } }),
      ("amy", { Username := "amy", PasswordHash := { salt := 2, pw := "pw2" } })]⟩
    (by decide) "bob"
